import Mathlib

/-!
Verification development for the kanata event-processing engine
(`src/kanata.rs`): a shallow embedding of the `Kanata` struct and
its methods `handle_key_event`, `handle_time_ticks`, `handle_repeat`,
the warm-up phase of `start_processing_loop`, and the Linux
`event_loop`, together with theorems about diff emission, parity,
live reload and passthrough.

External collaborators (the keyberon layout, the configuration loader,
the OS input/output devices) are modelled as oracles: the layout is an
opaque token whose observable behaviour at each tick (the `CustomEvent`
returned by `tick()` and the list collected from `keycodes()`) is
supplied as input, and the result of `cfg::Cfg::new_from_file` at a
tick where a reload is attempted is likewise supplied as input.
Output-driver calls are modelled as an emission trace.
-/

namespace KanataSpec

/-- OsCode: physical key identifier as known to the OS. -/
abbrev OsCode := Nat

/-- KeyCode: logical key identifier as known to the keyberon layout. -/
abbrev KeyCode := Nat

/-- Opaque token identifying a keyberon layout value (`cfg::KanataLayout`).
The layout is an external collaborator; its observable per-tick behaviour
is supplied separately as a `TickObs` oracle. -/
abbrev Layout := Nat

/-- MappedKeys: the `[bool; 256]` filter, modelled as a list of booleans
indexed by OsCode (reads use `getD` with default `false`). -/
abbrev MappedKeys := List Bool

/-- KeyOutputs: `cfg::KeyOutputs`, a table from OsCode to an optional
ordered sequence of output OsCodes (reads use `getD` with default `none`). -/
abbrev KeyOutputs := List (Option (List OsCode))

/-- KeyValue: the value of an OS key event. -/
inductive KeyValue where
  | Press
  | Release
  | Repeat
deriving DecidableEq

/-- KeyEvent: an OS key event, `{code, value}`. -/
structure KeyEvent where
  code : OsCode
  value : KeyValue
deriving DecidableEq

/-- MouseBtn: a mouse button for the `CustomAction::Mouse` variant. -/
inductive MouseBtn where
  | Left
  | Mid
  | Right
deriving DecidableEq

/-- CustomAction: the custom actions of `custom_action.rs` that
`handle_time_ticks` matches on. -/
inductive CustomAction where
  | Unicode (c : Char)
  | Mouse (btn : MouseBtn)
  | LiveReload
deriving DecidableEq

/-- CustomEvent: what `layout.tick()` returns. -/
inductive CustomEvent where
  | NoEvent
  | Press (a : CustomAction)
  | Release (a : CustomAction)
deriving DecidableEq

/-- Emission: one call observed on the output driver `kbd_out`
(or, for `writeRaw`, the pass-through `kbd_out.write` of a raw event). -/
inductive Emission where
  | sendUnicode (c : Char)
  | clickBtn (b : MouseBtn)
  | releaseBtn (b : MouseBtn)
  | releaseKey (c : OsCode)
  | pressKey (c : OsCode)
  | writeKey (c : OsCode) (v : KeyValue)
  | writeRaw (id : Nat)
deriving DecidableEq

/-- Cfg: the configuration snapshot produced by `cfg::Cfg::new_from_file`:
mapped keys, key outputs table, and the compiled layout. -/
structure Cfg where
  mapped_keys : MappedKeys
  key_outputs : KeyOutputs
  layout : Layout
deriving DecidableEq

/-- KanataSt: the `Kanata` struct together with the process-wide
`MAPPED_KEYS` static (field `sharedMappedKeys`), which `handle_time_ticks`
overwrites on a successful live reload. -/
structure KanataSt where
  kbd_in_path : String
  kbd_out : Nat
  cfg_path : String
  mapped_keys : MappedKeys
  key_outputs : KeyOutputs
  layout : Layout
  prev_keys : List KeyCode
  last_tick : Nat
  sharedMappedKeys : MappedKeys
deriving DecidableEq

/-- TickObs: the oracle for one iteration of the tick loop: the
`CustomEvent` returned by `layout.tick()`, the list collected from
`layout.keycodes()`, and the result `cfg::Cfg::new_from_file` would
return if a reload were attempted at this tick (`none` models `Err`). -/
structure TickObs where
  custom : CustomEvent
  keycodes : List KeyCode
  reload : Option Cfg
deriving DecidableEq

/-- Emissions produced by the `match self.layout.tick()` arms of
`handle_time_ticks`: `send_unicode`, `click_btn`, `release_btn`. -/
def customEmit : CustomEvent → List Emission
  | CustomEvent.Press (CustomAction.Unicode c) => [Emission.sendUnicode c]
  | CustomEvent.Press (CustomAction.Mouse b) => [Emission.clickBtn b]
  | CustomEvent.Press CustomAction.LiveReload => []
  | CustomEvent.Release (CustomAction.Mouse b) => [Emission.releaseBtn b]
  | _ => []

/-- Whether the `match self.layout.tick()` arm sets
`live_reload_requested = true` (only `CustomEvent::Press(LiveReload)`). -/
def customSetsReload : CustomEvent → Bool
  | CustomEvent.Press CustomAction.LiveReload => true
  | _ => false

/-- Release-diff loop of `handle_time_ticks`: for each `k` in `prev_keys`
in order, skip it if `cur_keys.contains(k)`, otherwise emit
`release_key(k.into())`. -/
def releaseDiff (kcToOs : KeyCode → OsCode) (cur_keys : List KeyCode) :
    List KeyCode → List Emission
  | [] => []
  | k :: rest =>
    if cur_keys.contains k then releaseDiff kcToOs cur_keys rest
    else Emission.releaseKey (kcToOs k) :: releaseDiff kcToOs cur_keys rest

/-- Press-diff loop of `handle_time_ticks`: for each `k` in `cur_keys`
in order, skip it if `prev_keys.contains(k)`, otherwise emit
`press_key(k.into())`. -/
def pressDiff (kcToOs : KeyCode → OsCode) (prev_keys : List KeyCode) :
    List KeyCode → List Emission
  | [] => []
  | k :: rest =>
    if prev_keys.contains k then pressDiff kcToOs prev_keys rest
    else Emission.pressKey (kcToOs k) :: pressDiff kcToOs prev_keys rest

/-- One iteration of the `for _ in 0..ms_elapsed` loop of
`handle_time_ticks`. The pair `(KanataSt, Bool)` carries the struct state
together with the local `live_reload_requested` variable. In source
order: act on the custom event, collect `cur_keys`, emit the release
diff then the press diff, attempt the quiescent reload, and finally
assign `prev_keys = cur_keys`. -/
def tickOnce (kcToOs : KeyCode → OsCode) (s : KanataSt × Bool) (obs : TickObs) :
    (KanataSt × Bool) × List Emission :=
  let st := s.1
  let lrr1 := s.2 || customSetsReload obs.custom
  let e1 := customEmit obs.custom
  let cur_keys := obs.keycodes
  let e2 := releaseDiff kcToOs cur_keys st.prev_keys
  let e3 := pressDiff kcToOs st.prev_keys cur_keys
  let s2 : KanataSt × Bool :=
    if lrr1 && st.prev_keys.isEmpty && cur_keys.isEmpty then
      match obs.reload with
      | none => (st, false)
      | some cfg =>
        ({ st with
            layout := cfg.layout
            sharedMappedKeys := cfg.mapped_keys
            key_outputs := cfg.key_outputs }, false)
    else (st, lrr1)
  (({ s2.1 with prev_keys := cur_keys }, s2.2), e1 ++ e2 ++ e3)

/-- Run the tick loop over a list of per-tick observations, threading the
state and the local `live_reload_requested` flag and concatenating the
emission traces. -/
def runTicksAux (kcToOs : KeyCode → OsCode) (s : KanataSt × Bool) :
    List TickObs → (KanataSt × Bool) × List Emission
  | [] => (s, [])
  | obs :: rest =>
    let r := tickOnce kcToOs s obs
    let r2 := runTicksAux kcToOs r.1 rest
    (r2.1, r.2 ++ r2.2)

/-- One invocation of `Kanata::handle_time_ticks`: compute
`ms_elapsed = now - last_tick`, update `last_tick` when positive, then
run the tick loop `ms_elapsed` times with the local
`live_reload_requested` initialised to `false` (and discarded at the
end of the invocation). The oracle `obsF i` gives the observation of
the i-th tick of this invocation. -/
def handle_time_ticks (kcToOs : KeyCode → OsCode) (now : Nat)
    (obsF : Nat → TickObs) (st : KanataSt) : KanataSt × List Emission :=
  let ms_elapsed := now - st.last_tick
  let st1 := if 0 < ms_elapsed then { st with last_tick := now } else st
  let r := runTicksAux kcToOs (st1, false) ((List.range ms_elapsed).map obsF)
  (r.1.1, r.2)

/-- Successive invocations of `handle_time_ticks`, as performed by the
processing loop; each invocation supplies the wall-clock `now` and its
tick-observation oracle. -/
def runInvocations (kcToOs : KeyCode → OsCode) (st : KanataSt) :
    List (Nat × (Nat → TickObs)) → KanataSt × List Emission
  | [] => (st, [])
  | (now, obsF) :: rest =>
    let r := handle_time_ticks kcToOs now obsF st
    let r2 := runInvocations kcToOs r.1 rest
    (r2.1, r.2 ++ r2.2)

/-- First-match loop of `handle_repeat`: iterate `outputs_for_key` in
order and pick the first output OsCode whose KeyCode (via `.into()`) is
among the active keycodes; `break` on the first hit. -/
def firstActiveOutput (osToKc : OsCode → KeyCode) (active : List KeyCode) :
    List OsCode → Option OsCode
  | [] => none
  | o :: rest =>
    if active.contains (osToKc o) then some o
    else firstActiveOutput osToKc active rest

/-- Kanata::handle_repeat: look up `key_outputs[event.code]`; if absent
return with no emission, otherwise emit `write_key(o, Repeat)` for the
first candidate `o` active in `layout.keycodes()`, or nothing when no
candidate is active. `keycodes` is the list collected from the layout
(the source collects it into a HashSet used only for membership). -/
def handle_repeat (osToKc : OsCode → KeyCode) (keycodes : List KeyCode)
    (key_outputs : KeyOutputs) (event : KeyEvent) : List Emission :=
  match key_outputs.getD event.code none with
  | none => []
  | some outputs_for_key =>
    match firstActiveOutput osToKc keycodes outputs_for_key with
    | some kc => [Emission.writeKey kc KeyValue.Repeat]
    | none => []

/-- LayoutEvent: the keyberon `Event` delivered to `layout.event`. -/
inductive LayoutEvent where
  | press (i : Nat) (j : Nat)
  | release (i : Nat) (j : Nat)
deriving DecidableEq

/-- Kanata::handle_key_event: Press and Release become keyberon events
`Event::Press(0, evc as u8)` / `Event::Release(0, evc as u8)` delivered
to the layout (the `as u8` cast is modelled by `% 256`); Repeat is
routed to `handle_repeat` and never reaches the layout. Returns the
event delivered to the layout (if any) and the emissions. -/
def handle_key_event (osToKc : OsCode → KeyCode) (keycodes : List KeyCode)
    (key_outputs : KeyOutputs) (event : KeyEvent) :
    Option LayoutEvent × List Emission :=
  match event.value with
  | KeyValue.Press => (some (LayoutEvent.press 0 (event.code % 256)), [])
  | KeyValue.Release => (some (LayoutEvent.release 0 (event.code % 256)), [])
  | KeyValue.Repeat => (none, handle_repeat osToKc keycodes key_outputs event)

/-- Emissions of one iteration of the warm-up loop given the `try_recv`
result: on `Ok(kev)` with `kev.value == Release`, `release_key(kev.code)`;
otherwise nothing. -/
def warmupObs : Option KeyEvent → List Emission
  | some kev =>
    if kev.value = KeyValue.Release then [Emission.releaseKey kev.code] else []
  | none => []

/-- Warm-up loop of `start_processing_loop`, counted down from the
iteration budget: each of the `for _ in 0..500` iterations consumes one
`try_recv` result (an exhausted list models `Err(Empty)` from then on)
and forwards only releases to the output driver. -/
def warmupRun : Nat → List (Option KeyEvent) → List Emission
  | 0, _ => []
  | _ + 1, [] => []
  | n + 1, r :: rest => warmupObs r ++ warmupRun n rest

/-- Warm-up phase: 500 iterations at 1 ms pacing, `recvs` being the
sequence of `try_recv` results. The layout is never consulted and no
field of the `Kanata` state is touched; only `kbd_out.release_key`
calls are made. -/
def warmup (recvs : List (Option KeyEvent)) : List Emission :=
  warmupRun 500 recvs

/-- Modelled from the spec: `cfg::MAPPED_KEYS_LEN`, the length of the
MappedKeys filter, is 256 (the `cfg` module is outside `src/`; the spec
fixes the filter as a boolean vector of length 256, matching the
`[false; 256]` initialiser of the `MAPPED_KEYS` static). -/
def MAPPED_KEYS_LEN : Nat := 256

/-- InEvent: a raw event read from the input device; `asKey` is the
result of the external `KeyEvent::try_from` conversion (`none` models a
non-key event such as axis, LED or sync). -/
structure InEvent where
  id : Nat
  asKey : Option KeyEvent
deriving DecidableEq

/-- LoopOut: what one iteration of the Linux `event_loop` does with an
input event: pass the raw event through `kbd_out.write`, emit
`kbd_out.write_key` directly, or send the KeyEvent on the channel to
the processing loop. -/
inductive LoopOut where
  | writeRaw (id : Nat)
  | writeKeyDirect (c : OsCode) (v : KeyValue)
  | sendChannel (ev : KeyEvent)
deriving DecidableEq

/-- One iteration of the Linux `Kanata::event_loop`: non-key events are
passed through verbatim; a key event whose code is out of range of the
`MAPPED_KEYS` filter or not mapped is written directly via `write_key`;
otherwise the event is sent on the channel. `shared` is the contents of
the `MAPPED_KEYS` static. -/
def event_loop_once (shared : MappedKeys) (ev : InEvent) : LoopOut :=
  match ev.asKey with
  | none => LoopOut.writeRaw ev.id
  | some key_event =>
    let kc : Nat := key_event.code
    if MAPPED_KEYS_LEN ≤ kc ∨ shared.getD kc false = false then
      LoopOut.writeKeyDirect key_event.code key_event.value
    else LoopOut.sendChannel key_event

/-- OS-held-keys model: the effect of one emission on the set of keys
the OS considers held (`press_key` inserts, `release_key` erases, all
other emissions leave the set unchanged). -/
def applyEmission (held : Finset OsCode) : Emission → Finset OsCode
  | Emission.pressKey c => insert c held
  | Emission.releaseKey c => held.erase c
  | _ => held

/-- Apply a trace of emissions to an OS-held-keys model, in order. -/
def applyEmissions (es : List Emission) (held : Finset OsCode) : Finset OsCode :=
  es.foldl applyEmission held

/-- Concrete configuration snapshot used for live-reload scenarios: it
carries a layout token distinct from the initial one. -/
def exCfg : Cfg :=
  { mapped_keys := [], key_outputs := [], layout := 1 }

/-- Concrete initial `Kanata` state: empty `prev_keys`, layout token 0,
`last_tick` 0. -/
def exSt : KanataSt :=
  { kbd_in_path := "", kbd_out := 0, cfg_path := "", mapped_keys := []
    key_outputs := [], layout := 0, prev_keys := [], last_tick := 0
    sharedMappedKeys := [] }

/-- Tick oracle of a first invocation: the layout emits
`Press(LiveReload)` while key 5 is held, and a reload attempt would
succeed with `exCfg`. -/
def exObs1 : Nat → TickObs :=
  fun _ => { custom := CustomEvent.Press CustomAction.LiveReload
             keycodes := [5], reload := some exCfg }

/-- Tick oracle of a later invocation: no custom event, no key held any
more, and a reload attempt would succeed with `exCfg`. -/
def exObs2 : Nat → TickObs :=
  fun _ => { custom := CustomEvent.NoEvent, keycodes := [], reload := some exCfg }

/-- The two successive invocations of `handle_time_ticks`: one tick at
`now = 1` observing the LiveReload press with key 5 held, then two ticks
at `now = 3` during which key 5 is released and the state becomes fully
quiescent. -/
def exInvs : List (Nat × (Nat → TickObs)) := [(1, exObs1), (3, exObs2)]

/-- Quiescent tick observation whose configuration load fails. -/
def exObsFail : TickObs :=
  { custom := CustomEvent.NoEvent, keycodes := [], reload := none }

/-- Variant of `exSt` differing in every snapshot component the diff
emission must not depend on. -/
def exStAlt : KanataSt :=
  { exSt with layout := 9, cfg_path := "other", kbd_out := 3
              key_outputs := [some [1]], sharedMappedKeys := [true] }

/-- Key-outputs table with entry 30 holding the candidates 40 then 30. -/
def exOuts : KeyOutputs := List.replicate 30 none ++ [some [40, 30]]

/-- Prefix of tick observations within one invocation: the LiveReload
press arrives while key 7 is held, then key 7 is released. -/
def exPre : List TickObs :=
  [{ custom := CustomEvent.Press CustomAction.LiveReload, keycodes := [7]
     reload := none },
   { custom := CustomEvent.NoEvent, keycodes := [], reload := none }]

/-- Quiescent tick observation with a successful configuration load. -/
def exQ : TickObs :=
  { custom := CustomEvent.NoEvent, keycodes := [], reload := some exCfg }

/-! Helper lemmas about the tick loop. -/

theorem releaseDiff_eq_filter_map (kcToOs : KeyCode → OsCode) (cur : List KeyCode) :
    ∀ l : List KeyCode,
      releaseDiff kcToOs cur l
        = (l.filter fun k => !cur.contains k).map fun k => Emission.releaseKey (kcToOs k)
  | [] => rfl
  | k :: rest => by
    by_cases h : k ∈ cur <;>
      simp [releaseDiff, List.filter_cons, h, releaseDiff_eq_filter_map kcToOs cur rest]

theorem pressDiff_eq_filter_map (kcToOs : KeyCode → OsCode) (prev : List KeyCode) :
    ∀ l : List KeyCode,
      pressDiff kcToOs prev l
        = (l.filter fun k => !prev.contains k).map fun k => Emission.pressKey (kcToOs k)
  | [] => rfl
  | k :: rest => by
    by_cases h : k ∈ prev <;>
      simp [pressDiff, List.filter_cons, h, pressDiff_eq_filter_map kcToOs prev rest]

theorem tickOnce_snd (kcToOs : KeyCode → OsCode) (s : KanataSt × Bool) (obs : TickObs) :
    (tickOnce kcToOs s obs).2
      = customEmit obs.custom
          ++ releaseDiff kcToOs obs.keycodes s.1.prev_keys
          ++ pressDiff kcToOs s.1.prev_keys obs.keycodes := rfl

theorem tickOnce_prev (kcToOs : KeyCode → OsCode) (s : KanataSt × Bool) (obs : TickObs) :
    (tickOnce kcToOs s obs).1.1.prev_keys = obs.keycodes := rfl

theorem tickOnce_flag (kcToOs : KeyCode → OsCode) (s : KanataSt × Bool) (obs : TickObs) :
    (tickOnce kcToOs s obs).1.2
      = ((s.2 || customSetsReload obs.custom)
          && !(s.1.prev_keys.isEmpty && obs.keycodes.isEmpty)) := by
  obtain ⟨st, lrr⟩ := s
  obtain ⟨c, ks, rl⟩ := obs
  simp only [tickOnce]
  cases hb1 : lrr || customSetsReload c <;>
    cases hb2 : st.prev_keys.isEmpty <;>
      cases hb3 : ks.isEmpty <;>
        cases rl <;> simp_all

theorem runTicksAux_append (kcToOs : KeyCode → OsCode) (a b : List TickObs) :
    ∀ s : KanataSt × Bool,
      runTicksAux kcToOs s (a ++ b)
        = ((runTicksAux kcToOs (runTicksAux kcToOs s a).1 b).1,
            (runTicksAux kcToOs s a).2
              ++ (runTicksAux kcToOs (runTicksAux kcToOs s a).1 b).2) := by
  induction a with
  | nil => intro s; simp [runTicksAux]
  | cons obs rest ih => intro s; simp [runTicksAux, ih, List.append_assoc]

theorem runTicksAux_prev (kcToOs : KeyCode → OsCode) :
    ∀ (obss : List TickObs) (s : KanataSt × Bool),
      (runTicksAux kcToOs s obss).1.1.prev_keys
        = (obss.map TickObs.keycodes).getLastD s.1.prev_keys := by
  intro obss
  induction obss with
  | nil => intro s; rfl
  | cons obs rest ih =>
    intro s
    simp only [runTicksAux, List.map_cons, List.getLastD_cons]
    rw [ih, tickOnce_prev]

/-! Claim theorems. -/

/-- C3: Diff emission correctness. In every tick iteration, for each key
`k` in `prev_keys` in order, `release_key(k)` is issued exactly when `k`
is not in `cur_keys`; then, for each `k` in `cur_keys` in order,
`press_key(k)` is issued exactly when `k` is not in `prev_keys`; hence
within one iteration all release emissions precede all press emissions
(the only emissions preceding the releases are the custom-action ones,
which are neither presses nor releases of keys), and afterwards
`prev_keys` is assigned `cur_keys`. -/
theorem diff_emission_correct (kcToOs : KeyCode → OsCode) (s : KanataSt × Bool)
    (obs : TickObs) :
    ((tickOnce kcToOs s obs).2
        = customEmit obs.custom
            ++ ((s.1.prev_keys.filter fun k => !obs.keycodes.contains k).map
                  fun k => Emission.releaseKey (kcToOs k))
            ++ ((obs.keycodes.filter fun k => !s.1.prev_keys.contains k).map
                  fun k => Emission.pressKey (kcToOs k)))
    ∧ (tickOnce kcToOs s obs).1.1.prev_keys = obs.keycodes := by
  refine ⟨?_, tickOnce_prev kcToOs s obs⟩
  rw [tickOnce_snd, releaseDiff_eq_filter_map, pressDiff_eq_filter_map]

/-- C4: Reload quiescence. The configuration reload (replacing the
layout, overwriting the shared MappedKeys filter, replacing the
KeyOutputsTable) is performed only in a tick iteration in which both
`prev_keys` and `cur_keys` are empty: in any iteration where that fails,
all three snapshot components are left unchanged. -/
theorem reload_quiescence (kcToOs : KeyCode → OsCode) (s : KanataSt × Bool)
    (obs : TickObs) (h : ¬(s.1.prev_keys = [] ∧ obs.keycodes = [])) :
    (tickOnce kcToOs s obs).1.1.layout = s.1.layout
    ∧ (tickOnce kcToOs s obs).1.1.sharedMappedKeys = s.1.sharedMappedKeys
    ∧ (tickOnce kcToOs s obs).1.1.key_outputs = s.1.key_outputs := by
  obtain ⟨st, lrr⟩ := s
  obtain ⟨c, ks, rl⟩ := obs
  cases hp : st.prev_keys with
  | nil =>
    cases hk : ks with
    | nil => exact absurd ⟨hp, hk⟩ h
    | cons a l => cases rl <;> simp [tickOnce, hp, hk]
  | cons a l => cases rl <;> simp [tickOnce, hp]

theorem firstActiveOutput_eq_find (osToKc : OsCode → KeyCode) (active : List KeyCode) :
    ∀ l : List OsCode,
      firstActiveOutput osToKc active l
        = l.find? fun o => active.contains (osToKc o)
  | [] => rfl
  | o :: rest => by
    by_cases h : osToKc o ∈ active <;>
      simp [firstActiveOutput, List.find?_cons, h,
        firstActiveOutput_eq_find osToKc active rest]

/-- C6: Repeat resolution. For a Repeat event with OsCode `c`: if
`key_outputs[c]` is absent no output is emitted; otherwise exactly one
`write_key(o, Repeat)` is emitted where `o` is the first element of
`key_outputs[c]` whose KeyCode is in the active keycodes, and nothing is
emitted when no element matches; in all cases no event is delivered to
the layout, and at most one emission is produced. -/
theorem repeat_resolution (osToKc : OsCode → KeyCode) (keycodes : List KeyCode)
    (key_outputs : KeyOutputs) (event : KeyEvent)
    (hv : event.value = KeyValue.Repeat) :
    (handle_key_event osToKc keycodes key_outputs event).1 = none
    ∧ ((handle_key_event osToKc keycodes key_outputs event).2
        = match key_outputs.getD event.code none with
          | none => []
          | some outs =>
            match outs.find? fun o => keycodes.contains (osToKc o) with
            | some o => [Emission.writeKey o KeyValue.Repeat]
            | none => [])
    ∧ (handle_key_event osToKc keycodes key_outputs event).2.length ≤ 1 := by
  obtain ⟨c, v⟩ := event
  cases hv
  refine ⟨rfl, ?_, ?_⟩
  · simp only [handle_key_event, handle_repeat, firstActiveOutput_eq_find]
  · simp only [handle_key_event, handle_repeat]
    cases h1 : key_outputs.getD c none with
    | none => simp
    | some outs => cases h2 : firstActiveOutput osToKc keycodes outs <;> simp [h2]

theorem warmupRun_eq_join (n : Nat) :
    ∀ recvs : List (Option KeyEvent),
      warmupRun n recvs = ((recvs.take n).map warmupObs).flatten := by
  induction n with
  | zero => intro recvs; simp [warmupRun]
  | succ n ih =>
    intro recvs
    cases recvs with
    | nil => simp [warmupRun]
    | cons r rest => simp [warmupRun, ih]

theorem warmupRun_mem (n : Nat) :
    ∀ (recvs : List (Option KeyEvent)) (e : Emission), e ∈ warmupRun n recvs →
      ∃ c, e = Emission.releaseKey c
        ∧ some (KeyEvent.mk c KeyValue.Release) ∈ recvs.take n := by
  induction n with
  | zero => intro recvs e he; simp [warmupRun] at he
  | succ n ih =>
    intro recvs e he
    cases recvs with
    | nil => simp [warmupRun] at he
    | cons r rest =>
      simp only [warmupRun, List.mem_append] at he
      rcases he with he | he
      · cases r with
        | none => simp [warmupObs] at he
        | some kev =>
          by_cases hval : kev.value = KeyValue.Release
          · simp only [warmupObs, if_pos hval, List.mem_singleton] at he
            refine ⟨kev.code, he, ?_⟩
            simp only [List.take_succ_cons, List.mem_cons]
            left
            cases kev
            cases hval
            rfl
          · simp [warmupObs, if_neg hval] at he
      · obtain ⟨c, hc, hmem⟩ := ih rest e he
        exact ⟨c, hc, by simp [List.take_succ_cons, List.mem_cons, hmem]⟩

/-- C7: Warm-up isolation. Over the 500 warm-up iterations, the output
trace is exactly the concatenation, in order, of `release_key(c)` for
each received Release event with code `c` (nothing for a Press or Repeat
or for an empty channel poll); consequently every emission of the
warm-up phase is a `release_key` of the code of some Release event
received during it, so no Press event is ever observed on the output
driver. The layout is not consulted at all: `warmup` is a function of
the `try_recv` results alone and delivers nothing to the interpreter. -/
theorem warmup_isolation (recvs : List (Option KeyEvent)) :
    warmup recvs = ((recvs.take 500).map warmupObs).flatten
    ∧ ((warmup recvs).all fun e =>
        match e with
        | Emission.releaseKey _ => true
        | _ => false) = true := by
  refine ⟨warmupRun_eq_join 500 recvs, ?_⟩
  rw [List.all_eq_true]
  intro e he
  obtain ⟨c, rfl, -⟩ := warmupRun_mem 500 recvs e he
  rfl

/-- C8: Unmapped passthrough. For a key event read by the Linux input
loop: when the code is at least `MAPPED_KEYS_LEN` (256) or the shared
MappedKeys filter entry is false, the event is written directly to the
output driver via `write_key` with the received code and value (and is
not sent on the channel); when the code is below 256 and the filter
entry is true, the event is sent on the channel (and nothing is written
directly). -/
theorem unmapped_passthrough (shared : MappedKeys) (ev : InEvent) (kev : KeyEvent)
    (h : ev.asKey = some kev) :
    ((MAPPED_KEYS_LEN ≤ kev.code ∨ shared.getD kev.code false = false) →
        event_loop_once shared ev = LoopOut.writeKeyDirect kev.code kev.value)
    ∧ (kev.code < MAPPED_KEYS_LEN → shared.getD kev.code false = true →
        event_loop_once shared ev = LoopOut.sendChannel kev) := by
  obtain ⟨i, a⟩ := ev
  simp only at h
  subst h
  constructor
  · intro hcond
    simp only [event_loop_once]
    rw [if_pos hcond]
  · intro h1 h2
    simp only [event_loop_once]
    rw [if_neg]
    rintro (hle | hf)
    · exact absurd hle (not_le.mpr h1)
    · rw [h2] at hf
      cases hf

theorem no_reload_without_request (kcToOs : KeyCode → OsCode) :
    ∀ (obss : List TickObs) (st : KanataSt),
      (∀ o ∈ obss, customSetsReload o.custom = false) →
      (runTicksAux kcToOs (st, false) obss).1.1.layout = st.layout
      ∧ (runTicksAux kcToOs (st, false) obss).1.1.sharedMappedKeys
          = st.sharedMappedKeys
      ∧ (runTicksAux kcToOs (st, false) obss).1.1.key_outputs = st.key_outputs
      ∧ (runTicksAux kcToOs (st, false) obss).1.2 = false := by
  intro obss
  induction obss with
  | nil => intro st hall; simp [runTicksAux]
  | cons obs rest ih =>
    intro st hall
    have h0 : customSetsReload obs.custom = false := hall obs (by simp)
    have ht : (tickOnce kcToOs (st, false) obs).1
        = ({ st with prev_keys := obs.keycodes }, false) := by
      simp [tickOnce, h0]
    have hrest := ih { st with prev_keys := obs.keycodes }
      (fun o ho => hall o (by simp [ho]))
    simp only [runTicksAux, ht]
    exact hrest

/-- C5: Reload failure atomicity. At a quiescent tick (`prev_keys` and
`cur_keys` both empty) with a pending reload request, when loading the
configuration fails (`reload = none`), the snapshot (layout, shared
MappedKeys filter, KeyOutputsTable) is left unchanged and the request
flag is cleared, so over any continuation of the invocation in which the
layout emits no further `Press(LiveReload)`, no reload is applied and
the flag stays cleared. -/
theorem reload_failure_atomicity (kcToOs : KeyCode → OsCode) (st : KanataSt)
    (obs : TickObs) (obss : List TickObs)
    (hprev : st.prev_keys = []) (hcur : obs.keycodes = [])
    (hfail : obs.reload = none)
    (hnolr : ∀ o ∈ obss, customSetsReload o.custom = false) :
    (runTicksAux kcToOs (st, true) (obs :: obss)).1.1.layout = st.layout
    ∧ (runTicksAux kcToOs (st, true) (obs :: obss)).1.1.sharedMappedKeys
        = st.sharedMappedKeys
    ∧ (runTicksAux kcToOs (st, true) (obs :: obss)).1.1.key_outputs
        = st.key_outputs
    ∧ (runTicksAux kcToOs (st, true) (obs :: obss)).1.2 = false := by
  have ht : (tickOnce kcToOs (st, true) obs).1
      = ({ st with prev_keys := obs.keycodes }, false) := by
    simp [tickOnce, hprev, hcur, hfail]
  have hrest := no_reload_without_request kcToOs obss
    { st with prev_keys := obs.keycodes } hnolr
  simp only [runTicksAux, ht]
  exact hrest

/-- C9: Determinism of diff emission. The emission trace of the tick
loop is a deterministic function of the per-tick observations, the
initial `live_reload_requested` flag and the initial `prev_keys`
sequence: two runs over identical inputs produce identical traces,
element for element, even when every other component of the state
(layout token, configuration snapshot, paths) differs. In particular
two runs from the same initial state with identical inputs emit
byte-for-byte identical traces. -/
theorem diff_determinism (kcToOs : KeyCode → OsCode) (obss : List TickObs)
    (st1 st2 : KanataSt) (lrr : Bool) (h : st1.prev_keys = st2.prev_keys) :
    (runTicksAux kcToOs (st1, lrr) obss).2
      = (runTicksAux kcToOs (st2, lrr) obss).2 := by
  induction obss generalizing st1 st2 lrr with
  | nil => rfl
  | cons obs rest ih =>
    have hp1 := tickOnce_prev kcToOs (st1, lrr) obs
    have hp2 := tickOnce_prev kcToOs (st2, lrr) obs
    have hf1 := tickOnce_flag kcToOs (st1, lrr) obs
    have hf2 := tickOnce_flag kcToOs (st2, lrr) obs
    have he1 := tickOnce_snd kcToOs (st1, lrr) obs
    have he2 := tickOnce_snd kcToOs (st2, lrr) obs
    simp only [runTicksAux]
    rcases ht1 : tickOnce kcToOs (st1, lrr) obs with ⟨⟨s1n, f1⟩, es1⟩
    rcases ht2 : tickOnce kcToOs (st2, lrr) obs with ⟨⟨s2n, f2⟩, es2⟩
    rw [ht1] at hp1 hf1 he1
    rw [ht2] at hp2 hf2 he2
    dsimp at hp1 hp2 hf1 hf2 he1 he2 ⊢
    have hem : es1 = es2 := by rw [he1, he2, h]
    have hfl : f1 = f2 := by rw [hf1, hf2, h]
    have hpr : s1n.prev_keys = s2n.prev_keys := by rw [hp1, hp2]
    subst hfl
    rw [hem, ih s1n s2n f1 hpr]

theorem customEmit_no_key (ce : CustomEvent) :
    ((customEmit ce).all fun e =>
      match e with
      | Emission.pressKey _ => false
      | Emission.releaseKey _ => false
      | _ => true) = true := by
  cases ce with
  | NoEvent => rfl
  | Press act => cases act <;> rfl
  | Release act => cases act <;> rfl

/-- C10: Frame effect of a successful live reload. At a quiescent tick
with a pending request and a successful load, exactly the layout, the
shared MappedKeys filter and the KeyOutputsTable are replaced by the
new snapshot; `kbd_out`, `cfg_path`, `kbd_in_path`, the struct copy of
`mapped_keys`, `prev_keys` and `last_tick` are unchanged, the request
flag is cleared, and the iteration emits no key press or release
events. -/
theorem reload_frame (kcToOs : KeyCode → OsCode) (st : KanataSt) (lrr : Bool)
    (obs : TickObs) (cfg : Cfg)
    (hreq : (lrr || customSetsReload obs.custom) = true)
    (hprev : st.prev_keys = []) (hcur : obs.keycodes = [])
    (hload : obs.reload = some cfg) :
    (tickOnce kcToOs (st, lrr) obs).1.1.layout = cfg.layout
    ∧ (tickOnce kcToOs (st, lrr) obs).1.1.sharedMappedKeys = cfg.mapped_keys
    ∧ (tickOnce kcToOs (st, lrr) obs).1.1.key_outputs = cfg.key_outputs
    ∧ (tickOnce kcToOs (st, lrr) obs).1.1.kbd_out = st.kbd_out
    ∧ (tickOnce kcToOs (st, lrr) obs).1.1.cfg_path = st.cfg_path
    ∧ (tickOnce kcToOs (st, lrr) obs).1.1.kbd_in_path = st.kbd_in_path
    ∧ (tickOnce kcToOs (st, lrr) obs).1.1.mapped_keys = st.mapped_keys
    ∧ (tickOnce kcToOs (st, lrr) obs).1.1.prev_keys = st.prev_keys
    ∧ (tickOnce kcToOs (st, lrr) obs).1.1.last_tick = st.last_tick
    ∧ (tickOnce kcToOs (st, lrr) obs).1.2 = false
    ∧ ((tickOnce kcToOs (st, lrr) obs).2.all fun e =>
        match e with
        | Emission.pressKey _ => false
        | Emission.releaseKey _ => false
        | _ => true) = true := by
  have ht : (tickOnce kcToOs (st, lrr) obs)
      = (({ st with
              layout := cfg.layout
              sharedMappedKeys := cfg.mapped_keys
              key_outputs := cfg.key_outputs
              prev_keys := obs.keycodes }, false),
          customEmit obs.custom) := by
    simp [tickOnce, hreq, hprev, hcur, hload, releaseDiff, pressDiff]
  rw [ht]
  refine ⟨rfl, rfl, rfl, rfl, rfl, rfl, rfl, ?_, rfl, rfl, ?_⟩
  · rw [hcur, hprev]
  · exact customEmit_no_key obs.custom

/-- C1 (amended): live reload is installed at the next quiescent tick
iteration of the same invocation of the tick driver. Whenever, within
one invocation of `handle_time_ticks`, the local `live_reload_requested`
flag is set after some prefix of tick iterations and the state at that
point has `prev_keys` empty, then a next tick whose collected key set is
empty and whose configuration load succeeds installs the new snapshot
(layout, shared MappedKeys filter, KeyOutputsTable) at that tick and
clears the flag. The flag is local to the invocation, so a request
observed in one invocation does not survive into a later one; the
cross-invocation part of the original claim is refuted separately. -/
theorem live_reload_installed_same_invocation (kcToOs : KeyCode → OsCode)
    (pre : List TickObs) (q : TickObs) (cfg : Cfg) (st : KanataSt) (lrr0 : Bool)
    (hlrr : (runTicksAux kcToOs (st, lrr0) pre).1.2 = true)
    (hprev : (runTicksAux kcToOs (st, lrr0) pre).1.1.prev_keys = [])
    (hcur : q.keycodes = [])
    (hload : q.reload = some cfg) :
    (runTicksAux kcToOs (st, lrr0) (pre ++ [q])).1.1.layout = cfg.layout
    ∧ (runTicksAux kcToOs (st, lrr0) (pre ++ [q])).1.1.sharedMappedKeys
        = cfg.mapped_keys
    ∧ (runTicksAux kcToOs (st, lrr0) (pre ++ [q])).1.1.key_outputs
        = cfg.key_outputs
    ∧ (runTicksAux kcToOs (st, lrr0) (pre ++ [q])).1.2 = false := by
  rw [runTicksAux_append]
  rcases hs : (runTicksAux kcToOs (st, lrr0) pre).1 with ⟨stp, lrrp⟩
  rw [hs] at hlrr hprev
  dsimp at hlrr hprev
  subst hlrr
  have ht : (tickOnce kcToOs (stp, true) q).1
      = (({ stp with
              layout := cfg.layout
              sharedMappedKeys := cfg.mapped_keys
              key_outputs := cfg.key_outputs
              prev_keys := q.keycodes }, false)) := by
    simp [tickOnce, hprev, hcur, hload]
  simp [runTicksAux, ht]

/-- C1 (counterexample): the claim fails across invocations of the tick
driver, because `live_reload_requested` is a local variable of
`handle_time_ticks` reset to `false` at each invocation. Concretely: in
a first invocation the layout emits `Press(LiveReload)` at a tick where
key 5 is held; in a second invocation key 5 is released at the first
tick and the second tick has both `prev_keys` and the current key set
empty, with a configuration load that would succeed with `exCfg`; yet
after both invocations the layout is still the initial one (token 0)
and not `exCfg.layout` (token 1) — no reload was installed at that
quiescent tick iteration. -/
theorem live_reload_lost_across_invocations :
    ((exObs1 0).custom = CustomEvent.Press CustomAction.LiveReload
        ∧ (exObs1 0).keycodes ≠ [])
    ∧ ((exObs2 0).keycodes = [] ∧ (exObs2 1).keycodes = []
        ∧ (exObs2 1).reload = some exCfg)
    ∧ (runTicksAux (fun k => k)
          ((runInvocations (fun k => k) exSt [(1, exObs1)]).1, false)
          [exObs2 0]).1.1.prev_keys = []
    ∧ (runInvocations (fun k => k) exSt exInvs).1.layout = exSt.layout
    ∧ exSt.layout ≠ exCfg.layout := by
  refine ⟨⟨rfl, by decide⟩, ⟨rfl, rfl, rfl⟩, by decide, by decide, by decide⟩

theorem applyEmissions_append (a b : List Emission) (held : Finset OsCode) :
    applyEmissions (a ++ b) held = applyEmissions b (applyEmissions a held) := by
  simp [applyEmissions, List.foldl_append]

theorem applyEmissions_customEmit (ce : CustomEvent) (held : Finset OsCode) :
    applyEmissions (customEmit ce) held = held := by
  cases ce with
  | NoEvent => rfl
  | Press act => cases act <;> rfl
  | Release act => cases act <;> rfl

theorem mem_applyEmissions_releases (x : OsCode) :
    ∀ (cs : List OsCode) (held : Finset OsCode),
      (x ∈ applyEmissions (cs.map Emission.releaseKey) held
        ↔ x ∈ held ∧ x ∉ cs) := by
  intro cs
  induction cs with
  | nil => intro held; simp [applyEmissions]
  | cons c rest ih =>
    intro held
    have hstep : applyEmissions ((c :: rest).map Emission.releaseKey) held
        = applyEmissions (rest.map Emission.releaseKey) (held.erase c) := rfl
    rw [hstep, ih]
    simp only [Finset.mem_erase, List.mem_cons]
    constructor
    · rintro ⟨⟨hne, hin⟩, hno⟩
      exact ⟨hin, fun hor => hor.elim hne hno⟩
    · rintro ⟨hin, hno⟩
      exact ⟨⟨fun he => hno (Or.inl he), hin⟩, fun hr => hno (Or.inr hr)⟩

theorem mem_applyEmissions_presses (x : OsCode) :
    ∀ (cs : List OsCode) (held : Finset OsCode),
      (x ∈ applyEmissions (cs.map Emission.pressKey) held
        ↔ x ∈ cs ∨ x ∈ held) := by
  intro cs
  induction cs with
  | nil => intro held; simp [applyEmissions]
  | cons c rest ih =>
    intro held
    have hstep : applyEmissions ((c :: rest).map Emission.pressKey) held
        = applyEmissions (rest.map Emission.pressKey) (insert c held) := rfl
    rw [hstep, ih]
    simp only [Finset.mem_insert, List.mem_cons]
    tauto

theorem diff_parity_step (kcToOs : KeyCode → OsCode)
    (hinj : Function.Injective kcToOs) (prev cur : List KeyCode) :
    applyEmissions
        (releaseDiff kcToOs cur prev ++ pressDiff kcToOs prev cur)
        (prev.map kcToOs).toFinset
      = (cur.map kcToOs).toFinset := by
  rw [releaseDiff_eq_filter_map, pressDiff_eq_filter_map, applyEmissions_append]
  have hrel : ((prev.filter fun k => !cur.contains k).map
      fun k => Emission.releaseKey (kcToOs k))
      = ((prev.filter fun k => !cur.contains k).map kcToOs).map
          Emission.releaseKey := by
    simp [List.map_map, Function.comp]
  have hpress : ((cur.filter fun k => !prev.contains k).map
      fun k => Emission.pressKey (kcToOs k))
      = ((cur.filter fun k => !prev.contains k).map kcToOs).map
          Emission.pressKey := by
    simp [List.map_map, Function.comp]
  rw [hrel, hpress]
  ext x
  rw [mem_applyEmissions_presses, mem_applyEmissions_releases]
  simp only [List.mem_map, List.mem_filter, List.mem_toFinset,
    Bool.not_eq_true', List.elem_eq_mem, decide_eq_false_iff_not]
  constructor
  · rintro (⟨k, ⟨hkc, _⟩, rfl⟩ | ⟨⟨k, hkp, rfl⟩, hno⟩)
    · exact ⟨k, hkc, rfl⟩
    · by_cases hk : k ∈ cur
      · exact ⟨k, hk, rfl⟩
      · exact absurd ⟨k, ⟨hkp, hk⟩, rfl⟩ hno
  · rintro ⟨k, hkc, rfl⟩
    by_cases hk : k ∈ prev
    · refine Or.inr ⟨⟨k, hk, rfl⟩, ?_⟩
      rintro ⟨k2, ⟨_, hk2c⟩, he⟩
      exact hk2c (hinj he ▸ hkc)
    · exact Or.inl ⟨k, ⟨hkc, hk⟩, rfl⟩

theorem parity_runTicks (kcToOs : KeyCode → OsCode)
    (hinj : Function.Injective kcToOs) :
    ∀ (obss : List TickObs) (s : KanataSt × Bool),
      applyEmissions (runTicksAux kcToOs s obss).2
          (s.1.prev_keys.map kcToOs).toFinset
        = ((runTicksAux kcToOs s obss).1.1.prev_keys.map kcToOs).toFinset := by
  intro obss
  induction obss with
  | nil => intro s; simp [runTicksAux, applyEmissions]
  | cons obs rest ih =>
    intro s
    simp only [runTicksAux]
    rw [applyEmissions_append]
    have h1 : applyEmissions (tickOnce kcToOs s obs).2
        (s.1.prev_keys.map kcToOs).toFinset
        = (obs.keycodes.map kcToOs).toFinset := by
      rw [tickOnce_snd, List.append_assoc, applyEmissions_append,
        applyEmissions_customEmit, diff_parity_step kcToOs hinj]
    rw [h1]
    have h2 := ih (tickOnce kcToOs s obs).1
    rw [tickOnce_prev] at h2
    exact h2

theorem handle_time_ticks_parity (kcToOs : KeyCode → OsCode)
    (hinj : Function.Injective kcToOs) (now : Nat) (obsF : Nat → TickObs)
    (st : KanataSt) :
    applyEmissions (handle_time_ticks kcToOs now obsF st).2
        (st.prev_keys.map kcToOs).toFinset
      = ((handle_time_ticks kcToOs now obsF st).1.prev_keys.map kcToOs).toFinset := by
  by_cases hm : 0 < now - st.last_tick <;>
    simp only [handle_time_ticks, hm, if_pos, if_neg, if_true, if_false,
      reduceIte] <;>
    exact parity_runTicks kcToOs hinj _ _

/-- C2: Parity invariant. Starting from an empty `prev_keys` (startup),
over any sequence of invocations of the tick driver, applying the entire
emission trace to an empty model of OS-held keys yields exactly the
image of the final `prev_keys` under the KeyCode-to-OsCode conversion;
and after every tick iteration `prev_keys` equals the sequence collected
from `interpreter.keycodes()` at that iteration (the last collected
sequence of the iterations run, or the prior `prev_keys` when no tick
ran). The conversion being injective is the spec's assumption that the
OsCode/KeyCode correspondence is an injective mapping. -/
theorem parity_invariant (kcToOs : KeyCode → OsCode)
    (hinj : Function.Injective kcToOs)
    (invs : List (Nat × (Nat → TickObs))) (st : KanataSt)
    (h0 : st.prev_keys = [])
    (obss : List TickObs) (s : KanataSt × Bool) :
    applyEmissions (runInvocations kcToOs st invs).2 ∅
      = (((runInvocations kcToOs st invs).1.prev_keys.map kcToOs).toFinset)
    ∧ (runTicksAux kcToOs s obss).1.1.prev_keys
        = (obss.map TickObs.keycodes).getLastD s.1.prev_keys := by
  constructor
  · have main : ∀ (invs2 : List (Nat × (Nat → TickObs))) (st2 : KanataSt),
        applyEmissions (runInvocations kcToOs st2 invs2).2
            (st2.prev_keys.map kcToOs).toFinset
          = (((runInvocations kcToOs st2 invs2).1.prev_keys.map kcToOs).toFinset) := by
      intro invs2
      induction invs2 with
      | nil => intro st2; simp [runInvocations, applyEmissions]
      | cons inv rest ih =>
        intro st2
        obtain ⟨now, obsF⟩ := inv
        simp only [runInvocations]
        rw [applyEmissions_append, handle_time_ticks_parity kcToOs hinj, ih]
    have := main invs st
    rw [h0] at this
    simpa using this
  · exact runTicksAux_prev kcToOs obss s

/-! Witnesses: concrete instantiations discharging each hypothesis. -/

theorem reload_quiescence_witness :
    ¬(exSt.prev_keys = [] ∧ (exObs1 0).keycodes = [])
    ∧ ((tickOnce (fun k => k) (exSt, true) (exObs1 0)).1.1.layout = exSt.layout
    ∧ (tickOnce (fun k => k) (exSt, true) (exObs1 0)).1.1.sharedMappedKeys
        = exSt.sharedMappedKeys
    ∧ (tickOnce (fun k => k) (exSt, true) (exObs1 0)).1.1.key_outputs
        = exSt.key_outputs) :=
  ⟨by decide, reload_quiescence (fun k => k) (exSt, true) (exObs1 0) (by decide)⟩

theorem repeat_resolution_witness :
    (KeyEvent.mk 30 KeyValue.Repeat).value = KeyValue.Repeat
    ∧ ((handle_key_event (fun o => o) [30] exOuts
          (KeyEvent.mk 30 KeyValue.Repeat)).1 = none
    ∧ ((handle_key_event (fun o => o) [30] exOuts
          (KeyEvent.mk 30 KeyValue.Repeat)).2
        = match exOuts.getD (KeyEvent.mk 30 KeyValue.Repeat).code none with
          | none => []
          | some outs =>
            match outs.find? fun o => List.contains [30] ((fun o => o) o) with
            | some o => [Emission.writeKey o KeyValue.Repeat]
            | none => [])
    ∧ (handle_key_event (fun o => o) [30] exOuts
          (KeyEvent.mk 30 KeyValue.Repeat)).2.length ≤ 1) :=
  ⟨rfl, repeat_resolution (fun o => o) [30] exOuts
    (KeyEvent.mk 30 KeyValue.Repeat) rfl⟩

theorem unmapped_passthrough_witness :
    (InEvent.mk 0 (some (KeyEvent.mk 17 KeyValue.Press))).asKey
        = some (KeyEvent.mk 17 KeyValue.Press)
    ∧ event_loop_once [] (InEvent.mk 0 (some (KeyEvent.mk 17 KeyValue.Press)))
        = LoopOut.writeKeyDirect 17 KeyValue.Press :=
  ⟨rfl, (unmapped_passthrough []
      (InEvent.mk 0 (some (KeyEvent.mk 17 KeyValue.Press)))
      (KeyEvent.mk 17 KeyValue.Press) rfl).1 (Or.inr rfl)⟩

theorem reload_failure_atomicity_witness :
    (runTicksAux (fun k => k) (exSt, true) (exObsFail :: [exObsFail])).1.1.layout
        = exSt.layout
    ∧ (runTicksAux (fun k => k) (exSt, true)
          (exObsFail :: [exObsFail])).1.1.sharedMappedKeys = exSt.sharedMappedKeys
    ∧ (runTicksAux (fun k => k) (exSt, true)
          (exObsFail :: [exObsFail])).1.1.key_outputs = exSt.key_outputs
    ∧ (runTicksAux (fun k => k) (exSt, true) (exObsFail :: [exObsFail])).1.2
        = false :=
  reload_failure_atomicity (fun k => k) exSt exObsFail [exObsFail]
    rfl rfl rfl (by decide)

theorem diff_determinism_witness :
    exSt.prev_keys = exStAlt.prev_keys
    ∧ (runTicksAux (fun k => k) (exSt, false) [exObs1 0]).2
        = (runTicksAux (fun k => k) (exStAlt, false) [exObs1 0]).2 :=
  ⟨rfl, diff_determinism (fun k => k) [exObs1 0] exSt exStAlt false rfl⟩

theorem reload_frame_witness :
    (tickOnce (fun k => k) (exSt, true) exQ).1.1.layout = exCfg.layout
    ∧ (tickOnce (fun k => k) (exSt, true) exQ).1.1.sharedMappedKeys
        = exCfg.mapped_keys
    ∧ (tickOnce (fun k => k) (exSt, true) exQ).1.1.key_outputs
        = exCfg.key_outputs
    ∧ (tickOnce (fun k => k) (exSt, true) exQ).1.1.kbd_out = exSt.kbd_out
    ∧ (tickOnce (fun k => k) (exSt, true) exQ).1.1.cfg_path = exSt.cfg_path
    ∧ (tickOnce (fun k => k) (exSt, true) exQ).1.1.kbd_in_path = exSt.kbd_in_path
    ∧ (tickOnce (fun k => k) (exSt, true) exQ).1.1.mapped_keys = exSt.mapped_keys
    ∧ (tickOnce (fun k => k) (exSt, true) exQ).1.1.prev_keys = exSt.prev_keys
    ∧ (tickOnce (fun k => k) (exSt, true) exQ).1.1.last_tick = exSt.last_tick
    ∧ (tickOnce (fun k => k) (exSt, true) exQ).1.2 = false
    ∧ ((tickOnce (fun k => k) (exSt, true) exQ).2.all fun e =>
        match e with
        | Emission.pressKey _ => false
        | Emission.releaseKey _ => false
        | _ => true) = true :=
  reload_frame (fun k => k) exSt true exQ exCfg rfl rfl rfl rfl

theorem live_reload_installed_same_invocation_witness :
    (runTicksAux (fun k => k) (exSt, false) (exPre ++ [exQ])).1.1.layout
        = exCfg.layout
    ∧ (runTicksAux (fun k => k) (exSt, false) (exPre ++ [exQ])).1.1.sharedMappedKeys
        = exCfg.mapped_keys
    ∧ (runTicksAux (fun k => k) (exSt, false) (exPre ++ [exQ])).1.1.key_outputs
        = exCfg.key_outputs
    ∧ (runTicksAux (fun k => k) (exSt, false) (exPre ++ [exQ])).1.2 = false :=
  live_reload_installed_same_invocation (fun k => k) exPre exQ exCfg exSt false
    (by decide) (by decide) rfl rfl

theorem parity_invariant_witness :
    applyEmissions (runInvocations (fun k => k) exSt exInvs).2 ∅
      = (((runInvocations (fun k => k) exSt exInvs).1.prev_keys.map
            fun k => k).toFinset)
    ∧ (runTicksAux (fun k => k) (exSt, false) exPre).1.1.prev_keys
        = (exPre.map TickObs.keycodes).getLastD (exSt, false).1.prev_keys :=
  parity_invariant (fun k => k) (fun _ _ h => h) exInvs exSt rfl exPre (exSt, false)

end KanataSpec
